import Mathlib

/-!
Verification of the image-compositing pipeline of `player4.py`.

The pipeline (`_apply_pipeline`) applies, in order: a luminance (brightness)
scale, an optional alpha-preserving inversion, a highlight overlay driven by a
luminance mask, an optional gradient-map blend, and an optional texture
composite.  The pixel math is delegated to PIL (Pillow) and numpy; the
definitions below embed the exact integer semantics of the PIL primitives the
source calls (`Image.blend`, `ImageOps.invert`, `Image.convert`,
`Image.point`, `Image.alpha_composite`, `ImageChops.multiply`,
`ImageChops.screen`) and the numpy overlay branch of `blend_images`.

Images are modelled as a width, a height, a mode and a total pixel function;
each pixel carries four 8-bit samples (r, g, b, a) as naturals.  For mode L
the sample is stored in `r` (conversions produce the canonical replicated
form), and for mode RGB the `a` field is the conventional 255.  Scalar
factors that the source computes in floating point (the brightness factor,
the normalized overlay arithmetic) are modelled in exact rational arithmetic;
the float→uint8 casts of the source truncate toward zero, which is `Int.floor`
on the non-negative values that arise.
-/

/-- One pixel: four 8-bit samples held as naturals. -/
@[ext] structure Pix where
  r : Nat
  g : Nat
  b : Nat
  a : Nat
deriving Repr, DecidableEq

/-- The PIL image modes the program manipulates. -/
inductive Mode where
  | L
  | RGB
  | RGBA
deriving Repr, DecidableEq

/-- An in-memory image: dimensions, mode, and a total pixel function. -/
@[ext] structure Img where
  w : Nat
  h : Nat
  mode : Mode
  px : Nat → Nat → Pix

/-- All samples of all pixels are 8-bit (≤ 255). -/
def Img.Valid (img : Img) : Prop :=
  ∀ x y, (img.px x y).r ≤ 255 ∧ (img.px x y).g ≤ 255 ∧
    (img.px x y).b ≤ 255 ∧ (img.px x y).a ≤ 255

/-- PIL's CLIP8: clamp a sample to [0,255] (inputs here are naturals). -/
def clip8 (n : Nat) : Nat := min 255 n

/-- PIL's `convert('RGB')`: drop alpha (RGBA), replicate the gray value (L),
or copy (RGB).  The conventional alpha field of an RGB image is 255. -/
def Img.convertRGB (img : Img) : Img :=
  ⟨img.w, img.h, .RGB, fun x y =>
    let p := img.px x y
    match img.mode with
    | .L => ⟨p.r, p.r, p.r, 255⟩
    | .RGB => ⟨p.r, p.g, p.b, 255⟩
    | .RGBA => ⟨p.r, p.g, p.b, 255⟩⟩

/-- PIL's `convert('RGBA')`: add a full-opacity alpha (RGB, L) or copy. -/
def Img.convertRGBA (img : Img) : Img :=
  ⟨img.w, img.h, .RGBA, fun x y =>
    let p := img.px x y
    match img.mode with
    | .L => ⟨p.r, p.r, p.r, 255⟩
    | .RGB => ⟨p.r, p.g, p.b, 255⟩
    | .RGBA => p⟩

/-- PIL's ITU-R 601-2 luma in 16-bit fixed point, as in `convert.c`:
`L = (19595·R + 38470·G + 7471·B) >> 16` (the weights sum to 65536). -/
def standardLuma (p : Pix) : Nat :=
  (19595 * p.r + 38470 * p.g + 7471 * p.b) / 65536

/-- PIL's `convert('L')`: luma of the color channels (alpha ignored), or a
copy for an L image. -/
def Img.convertL (img : Img) : Img :=
  match img.mode with
  | .L => img
  | _ =>
    ⟨img.w, img.h, .L, fun x y =>
      let l := standardLuma (img.px x y)
      ⟨l, l, l, 255⟩⟩

/-- The gray value a pixel contributes to `convert('L')`. -/
def grayOf (img : Img) (x y : Nat) : Nat := ((img.convertL).px x y).r

/-- One channel of `Image.blend(im1, im2, alpha)` (PIL's `Blend.c`):
`im1 + alpha·(im2 − im1)` computed in floating point and cast back to uint8.
For `0 ≤ alpha ≤ 1` the C code casts directly (truncation, modelled with the
uint8 wrap of the cast); outside that range it clamps to [0,255] first. -/
def blendChan (f : ℚ) (v1 v2 : Nat) : Nat :=
  let t : ℚ := (v1 : ℚ) + f * ((v2 : ℚ) - (v1 : ℚ))
  if 0 ≤ f ∧ f ≤ 1 then (Int.toNat ⌊t⌋) % 256
  else if t ≤ 0 then 0
  else if 255 ≤ t then 255
  else Int.toNat ⌊t⌋

/-- PIL's `ImageEnhance.Brightness(img).enhance(f)`: blend between a black
degenerate image and `img`.  For an RGBA image PIL copies the original alpha
into the degenerate first, so alpha blends with itself; for RGB and L only
the color channels exist. -/
def enhanceBrightness (f : ℚ) (img : Img) : Img :=
  { img with px := fun x y =>
      let p := img.px x y
      match img.mode with
      | .RGBA =>
          ⟨blendChan f 0 p.r, blendChan f 0 p.g, blendChan f 0 p.b,
           blendChan f p.a p.a⟩
      | _ =>
          ⟨blendChan f 0 p.r, blendChan f 0 p.g, blendChan f 0 p.b, p.a⟩ }

/-- The function `invert_image_keep_alpha` (player4.py lines 14–22): for RGBA, invert the
color channels with `ImageOps.invert` and keep alpha; otherwise invert the
RGB conversion. -/
def invert_image_keep_alpha (img : Img) : Img :=
  match img.mode with
  | .RGBA =>
      { img with px := fun x y =>
          let p := img.px x y
          ⟨255 - p.r, 255 - p.g, 255 - p.b, p.a⟩ }
  | _ =>
      let rgb := img.convertRGB
      { rgb with px := fun x y =>
          let p := rgb.px x y
          ⟨255 - p.r, 255 - p.g, 255 - p.b, p.a⟩ }

/-- The point table of `out.convert('L').point(lambda p: max(0,p-128)*2)`,
with the uint8 clip PIL applies to table entries (never active: inputs are
≤ 255 so values are ≤ 254). -/
def maskVal (v : Nat) : Nat := min 255 ((v - 128) * 2)

/-- The highlight mask the pipeline builds (player4.py line 174):
`out.convert('L').point(lambda p: max(0,p-128)*2)`. -/
def pipelineMask (img : Img) : Img :=
  let l := img.convertL
  { l with px := fun x y =>
      let m := maskVal ((l.px x y).r)
      ⟨m, m, m, 255⟩ }

/-- PIL's `Image.new('RGBA', (w,h), color + (0,))`: a solid color, alpha 0. -/
def newRGBA (w h : Nat) (c : Nat × Nat × Nat) : Img :=
  ⟨w, h, .RGBA, fun _ _ => ⟨c.1, c.2.1, c.2.2, 0⟩⟩

/-- PIL's `img.putalpha(mask)`: replace the alpha channel by the mask's value. -/
def putalpha (img mask : Img) : Img :=
  { img with px := fun x y =>
      let p := img.px x y
      ⟨p.r, p.g, p.b, (mask.px x y).r⟩ }

/-- PIL's SHIFTFORDIV255: `((a >> 8) + a) >> 8`, a fast division by 255. -/
def shiftForDiv255 (a : Nat) : Nat := (a / 256 + a) / 256

/-- One pixel of `Image.alpha_composite` (PIL's `AlphaComposite.c`,
PRECISION_BITS = 7): when the source alpha is 0 the destination pixel is
copied verbatim; otherwise the fixed-point source-over formula. -/
def compositePix (dst src : Pix) : Pix :=
  if src.a = 0 then dst
  else
    let blend := dst.a * (255 - src.a)
    let outa255 := src.a * 255 + blend
    let coef1 := src.a * 255 * 255 * 128 / outa255
    let coef2 := 255 * 128 - coef1
    let mix := fun (s d : Nat) =>
      shiftForDiv255 (s * coef1 + d * coef2 + 128 * 128) / 128
    ⟨mix src.r dst.r, mix src.g dst.g, mix src.b dst.b,
     shiftForDiv255 (outa255 + 128)⟩

/-- PIL's `Image.alpha_composite(dst, src)`: both images are RGBA of equal size in
every call the program makes; the result takes the destination's size. -/
def alpha_composite (dst src : Img) : Img :=
  ⟨dst.w, dst.h, .RGBA, fun x y => compositePix (dst.px x y) (src.px x y)⟩

/-- Modelled from the spec: `resize` itself (PIL's `Image.resize` with a
Lanczos/bicubic filter) is library code not present under src/; the spec
fixes only that the result has exactly the target dimensions ("produces a
new Raster of exactly (target_w, target_h)").  A same-size resize returns
the image unchanged (PIL short-circuits to a copy); otherwise the pixels are
a nearest-sample placeholder standing in for the real resampling filter and
only the dimensions are specified. -/
def Img.resize (img : Img) (tw th : Nat) : Img :=
  if img.w = tw ∧ img.h = th then img
  else
    ⟨tw, th, img.mode, fun x y => img.px (x * img.w / tw) (y * img.h / th)⟩

/-- PIL's `Image.blend(a, b, f)` on two RGB images of equal size (used with
f = 0.5 for the 'normal' mode). -/
def imageBlend (f : ℚ) (a b : Img) : Img :=
  ⟨a.w, a.h, .RGB, fun x y =>
    let p := a.px x y
    let q := b.px x y
    ⟨blendChan f p.r q.r, blendChan f p.g q.g, blendChan f p.b q.b, 255⟩⟩

/-- PIL's `ImageChops.multiply`: per channel `in1·in2/255`, clipped to 8 bits. -/
def chopsMultiply (a b : Img) : Img :=
  ⟨a.w, a.h, .RGB, fun x y =>
    let p := a.px x y
    let q := b.px x y
    ⟨clip8 (p.r * q.r / 255), clip8 (p.g * q.g / 255),
     clip8 (p.b * q.b / 255), 255⟩⟩

/-- PIL's `ImageChops.screen`: per channel `255 − (255−in1)·(255−in2)/255`. -/
def chopsScreen (a b : Img) : Img :=
  ⟨a.w, a.h, .RGB, fun x y =>
    let p := a.px x y
    let q := b.px x y
    ⟨clip8 (255 - (255 - p.r) * (255 - q.r) / 255),
     clip8 (255 - (255 - p.g) * (255 - q.g) / 255),
     clip8 (255 - (255 - p.b) * (255 - q.b) / 255), 255⟩⟩

/-- One channel of the numpy overlay branch (player4.py lines 34–40):
normalize to [0,1], take `2·b·t` where `b ≤ 0.5` else `1 − 2(1−b)(1−t)`,
then `np.clip(out*255, 0, 255).astype(np.uint8)` — a clamp followed by a
truncation toward zero (floor, the values being non-negative). -/
def overlayChan (v t : Nat) : Nat :=
  let b : ℚ := (v : ℚ) / 255
  let s : ℚ := (t : ℚ) / 255
  let o : ℚ := if b ≤ 1 / 2 then 2 * b * s else 1 - 2 * (1 - b) * (1 - s)
  Int.toNat ⌊max 0 (min 255 (o * 255))⌋

/-- The overlay branch of `blend_images` applied to two equal-size RGB
images; `Image.fromarray` of the base-shaped array yields an RGB image of
the base's size. -/
def overlayBlend (a b : Img) : Img :=
  ⟨a.w, a.h, .RGB, fun x y =>
    let p := a.px x y
    let q := b.px x y
    ⟨overlayChan p.r q.r, overlayChan p.g q.g, overlayChan p.b q.b, 255⟩⟩

/-- The function `blend_images(base_img, top_img, mode)` (player4.py lines 24–41):
convert both inputs to RGB, resize the top to the base's size, then dispatch
on the mode string; any unrecognized mode returns the converted base. -/
def blend_images (base_img top_img : Img) (mode : String) : Img :=
  let base := base_img.convertRGB
  let top := (top_img.convertRGB).resize base.w base.h
  if mode = "normal" then imageBlend (1 / 2) base top
  else if mode = "multiply" then chopsMultiply base top
  else if mode = "screen" then chopsScreen base top
  else if mode = "overlay" then overlayBlend base top
  else base

/-- The parameter bundle one pipeline run reads (`brightness` is
`brightness_var / 100`). -/
structure Params where
  brightness : ℚ
  invert : Bool
  highlight : Nat × Nat × Nat
  gradient : Option Img
  blendMode : String
  texture : Option Img

/-- Stages 1–2 of `_apply_pipeline`: brightness, then optional inversion. -/
def stage12 (P : Params) (img : Img) : Img :=
  let out := enhanceBrightness P.brightness img
  if P.invert then invert_image_keep_alpha out else out

/-- Stage 3 of `_apply_pipeline`: build the solid highlight overlay with the
luminance mask as alpha and composite it over the current image. -/
def highlightStage (hc : Nat × Nat × Nat) (img : Img) : Img :=
  let overlay := putalpha (newRGBA img.w img.h hc) (pipelineMask img)
  alpha_composite img.convertRGBA overlay

/-- The method `_apply_pipeline` (player4.py lines 166–185). -/
def apply_pipeline (P : Params) (img : Img) : Img :=
  let out := highlightStage P.highlight (stage12 P img)
  let out :=
    match P.gradient with
    | some gm => blend_images out.convertRGB (gm.resize out.w out.h) P.blendMode
    | none => out
  match P.texture with
  | some tx => alpha_composite out.convertRGBA (tx.resize out.w out.h)
  | none => out

/-- The (r, g, b) color channels of a pixel, without the alpha field. -/
def rgb3 (p : Pix) : Nat × Nat × Nat := (p.r, p.g, p.b)

/-- Spec-side mask formula (section 4.2 of the spec):
`mask = clamp(2 × max(0, gray − threshold), 0, 255)` with threshold 128. -/
def luminance_mask_spec (gray : Nat) : Nat :=
  (min 255 (max 0 (2 * (max 0 ((gray : Int) - 128))))).toNat

/-- Spec-side luminance scale (section 4.2): multiply the sample by the
factor and clamp to [0,255]; the quantization to an 8-bit sample is the
truncation the float→uint8 conversion performs. -/
def scale_luminance_spec (f : ℚ) (v : Nat) : Nat :=
  min 255 (Int.toNat ⌊f * (v : ℚ)⌋)

/-- The overlay blend formula of the claim, on samples normalized to [0,1]:
`2·b·t` where the base channel is at most one half, else `1 − 2(1−b)(1−t)`. -/
def overlayFormula (v t : Nat) : ℚ :=
  if (v : ℚ) / 255 ≤ 1 / 2 then 2 * ((v : ℚ) / 255) * ((t : ℚ) / 255)
  else 1 - 2 * (1 - (v : ℚ) / 255) * (1 - (t : ℚ) / 255)

/-- The claimed denormalization for the Overlay mode: rounding to the
nearest integer, then clamping to [0,255]. -/
def overlay_round_spec (v t : Nat) : Nat :=
  (min 255 (max 0 (round (overlayFormula v t * 255)))).toNat

/-- The denormalization the code performs for the Overlay mode: clamp to
[0,255], then truncate toward zero (floor on these non-negative values). -/
def overlay_floor_spec (v t : Nat) : Nat :=
  Int.toNat ⌊max 0 (min 255 (overlayFormula v t * 255))⌋

/-- A flat 100×100 mid-gray RGB image, the base image of the end-to-end
test of section 8 of the spec. -/
def grayBase : Img := ⟨100, 100, .RGB, fun _ _ => ⟨128, 128, 128, 255⟩⟩

/-- The parameter bundle of that end-to-end test: factor 1.0, no inversion,
white highlight color, no gradient map, no texture. -/
def paramsC1 : Params := ⟨1, false, (255, 255, 255), none, "normal", none⟩
/-! ### Helper lemmas about one blended channel -/

theorem blendChan_one (v : Nat) (hv : v ≤ 255) : blendChan 1 0 v = v := by
  simp only [blendChan, Nat.cast_zero]
  rw [if_pos ⟨le_refl (0:ℚ) |>.trans (by norm_num), le_refl 1⟩]
  have h1 : (0 : ℚ) + 1 * ((v : ℚ) - 0) = (v : ℚ) := by ring
  rw [h1, Int.floor_natCast, Int.toNat_natCast]
  exact Nat.mod_eq_of_lt (by omega)

theorem blendChan_self (f : ℚ) (a : Nat) (ha : a ≤ 255) : blendChan f a a = a := by
  simp only [blendChan]
  have ht : (a : ℚ) + f * ((a : ℚ) - (a : ℚ)) = (a : ℚ) := by ring
  rw [ht]
  split_ifs with h1 h2 h3
  · rw [Int.floor_natCast, Int.toNat_natCast]
    exact Nat.mod_eq_of_lt (by omega)
  · have : a = 0 := by exact_mod_cast Nat.cast_nonpos.mp h2
    omega
  · have : (255 : Nat) ≤ a := by exact_mod_cast h3
    omega
  · rw [Int.floor_natCast, Int.toNat_natCast]

theorem blendChan_nonneg (f : ℚ) (hf : 0 ≤ f) (v : Nat) (hv : v ≤ 255) :
    blendChan f 0 v = min 255 (Int.toNat ⌊f * (v : ℚ)⌋) := by
  simp only [blendChan, Nat.cast_zero]
  have ht : (0 : ℚ) + f * ((v : ℚ) - 0) = f * (v : ℚ) := by ring
  rw [ht]
  have hv0 : (0 : ℚ) ≤ (v : ℚ) := by positivity
  have hnn : (0 : ℚ) ≤ f * (v : ℚ) := mul_nonneg hf hv0
  split_ifs with h1 h2 h3
  · have hle : f * (v : ℚ) ≤ 255 := by
      calc f * (v : ℚ) ≤ 1 * 255 :=
            mul_le_mul h1.2 (by exact_mod_cast hv) hv0 (by norm_num)
        _ = 255 := by ring
    have hfl : ⌊f * (v : ℚ)⌋ ≤ 255 := by
      have := Int.floor_le_floor hle
      simpa using this
    have hfl0 : (0 : ℤ) ≤ ⌊f * (v : ℚ)⌋ := Int.floor_nonneg.mpr hnn
    rw [Nat.mod_eq_of_lt (by omega)]
    omega
  · have hz : f * (v : ℚ) = 0 := le_antisymm h2 hnn
    rw [hz]
    simp
  · have hfl : (255 : ℤ) ≤ ⌊f * (v : ℚ)⌋ := Int.le_floor.mpr (by exact_mod_cast h3)
    omega
  · have hlt : f * (v : ℚ) < 255 := lt_of_not_ge h3
    have hfl : ⌊f * (v : ℚ)⌋ < 255 := Int.floor_lt.mpr (by exact_mod_cast hlt)
    have hfl0 : (0 : ℤ) ≤ ⌊f * (v : ℚ)⌋ := Int.floor_nonneg.mpr hnn
    omega

theorem blendChan_le (f : ℚ) (v1 v2 : Nat) : blendChan f v1 v2 ≤ 255 := by
  simp only [blendChan]
  split_ifs with h1 h2 h3
  · have := Nat.mod_lt (Int.toNat ⌊(v1 : ℚ) + f * ((v2 : ℚ) - (v1 : ℚ))⌋)
      (show 0 < 256 by norm_num)
    omega
  · omega
  · omega
  · have hlt : (v1 : ℚ) + f * ((v2 : ℚ) - (v1 : ℚ)) < 255 := lt_of_not_ge h3
    have hfl : ⌊(v1 : ℚ) + f * ((v2 : ℚ) - (v1 : ℚ))⌋ < 255 :=
      Int.floor_lt.mpr (by exact_mod_cast hlt)
    omega

theorem blendChan_half_comm (v u : Nat) :
    blendChan (1 / 2) v u = blendChan (1 / 2) u v := by
  simp only [blendChan]
  rw [if_pos (by norm_num : (0:ℚ) ≤ 1/2 ∧ (1/2:ℚ) ≤ 1),
    if_pos (by norm_num : (0:ℚ) ≤ 1/2 ∧ (1/2:ℚ) ≤ 1)]
  have : (v : ℚ) + 1 / 2 * ((u : ℚ) - (v : ℚ))
      = (u : ℚ) + 1 / 2 * ((v : ℚ) - (u : ℚ)) := by ring
  rw [this]

/-! ### Validity preservation and mask bounds -/

theorem valid_enhanceBrightness (f : ℚ) (img : Img) (hv : img.Valid) :
    (enhanceBrightness f img).Valid := by
  obtain ⟨w, h, m, px⟩ := img
  intro x y
  have hvp := hv x y
  cases m <;>
    simp only [enhanceBrightness, Img.Valid] at hvp ⊢ <;>
    exact ⟨blendChan_le _ _ _, blendChan_le _ _ _, blendChan_le _ _ _,
      by first | exact hvp.2.2.2 | exact blendChan_le _ _ _⟩

theorem valid_invert (img : Img) (hv : img.Valid) :
    (invert_image_keep_alpha img).Valid := by
  obtain ⟨w, h, m, px⟩ := img
  intro x y
  have hvp := hv x y
  cases m <;>
    simp only [invert_image_keep_alpha, Img.convertRGB, Img.Valid] at hvp ⊢ <;>
    refine ⟨by omega, by omega, by omega, by omega⟩

theorem valid_stage12 (P : Params) (img : Img) (hv : img.Valid) :
    (stage12 P img).Valid := by
  unfold stage12
  by_cases hb : P.invert
  · simp only [hb, if_true]
    exact valid_invert _ (valid_enhanceBrightness _ _ hv)
  · simp only [hb, if_false]
    exact valid_enhanceBrightness _ _ hv

theorem standardLuma_le (p : Pix) (hr : p.r ≤ 255) (hg : p.g ≤ 255)
    (hb : p.b ≤ 255) : standardLuma p ≤ 255 := by
  unfold standardLuma
  have : 19595 * p.r + 38470 * p.g + 7471 * p.b ≤ 65536 * 255 := by omega
  omega

theorem grayOf_le (img : Img) (hv : img.Valid) (x y : Nat) :
    grayOf img x y ≤ 255 := by
  obtain ⟨w, h, m, px⟩ := img
  have hvp := hv x y
  cases m <;> simp only [grayOf, Img.convertL] <;>
    first
      | exact hvp.1
      | exact standardLuma_le _ hvp.1 hvp.2.1 hvp.2.2.1

theorem maskVal_le (v : Nat) (hv : v ≤ 255) : maskVal v ≤ 254 := by
  unfold maskVal
  omega

theorem pipelineMask_px (img : Img) (x y : Nat) :
    (pipelineMask img).px x y = ⟨maskVal (grayOf img x y), maskVal (grayOf img x y),
      maskVal (grayOf img x y), 255⟩ := rfl

theorem maskVal_spec (v : Nat) : maskVal v = luminance_mask_spec v := by
  unfold maskVal luminance_mask_spec
  omega

/-! ### Brightness with factor one is the identity -/

theorem enhanceBrightness_one (img : Img) (hv : img.Valid) :
    enhanceBrightness 1 img = img := by
  obtain ⟨w, h, m, px⟩ := img
  refine Img.ext rfl rfl rfl ?_
  funext x y
  have hvp := hv x y
  cases m <;>
    simp only [enhanceBrightness] <;>
    rw [blendChan_one _ hvp.1, blendChan_one _ hvp.2.1, blendChan_one _ hvp.2.2.1]
  rw [blendChan_self _ _ hvp.2.2.2]

/-! ### Inversion is an involution on color channels -/

theorem invert_px_rgba (img : Img) (hm : img.mode = Mode.RGBA) (x y : Nat) :
    (invert_image_keep_alpha img).px x y
      = ⟨255 - (img.px x y).r, 255 - (img.px x y).g, 255 - (img.px x y).b,
         (img.px x y).a⟩ := by
  obtain ⟨w, h, m, px⟩ := img
  cases m <;> first | rfl | simp at hm

theorem invert_mode_rgba (img : Img) (hm : img.mode = Mode.RGBA) :
    (invert_image_keep_alpha img).mode = Mode.RGBA := by
  obtain ⟨w, h, m, px⟩ := img
  cases m <;> first | rfl | simp at hm

/-- C4: applying the alpha-preserving inversion twice restores the original
color channels exactly; for an image with an alpha channel a single
application maps each of R,G,B to 255 minus its value and leaves alpha
untouched, and the double application is the identity (so neither
application changes the alpha channel). -/
theorem invert_preserve_alpha_involution (img : Img) (hv : img.Valid) :
    (∀ x y, rgb3 ((invert_image_keep_alpha (invert_image_keep_alpha img)).px x y)
        = rgb3 ((img.convertRGB).px x y))
    ∧ (img.mode = Mode.RGBA →
        invert_image_keep_alpha (invert_image_keep_alpha img) = img
        ∧ ∀ x y, (invert_image_keep_alpha img).px x y
            = ⟨255 - (img.px x y).r, 255 - (img.px x y).g, 255 - (img.px x y).b,
               (img.px x y).a⟩) := by
  obtain ⟨w, h, m, px⟩ := img
  constructor
  · intro x y
    have hvp : (px x y).r ≤ 255 ∧ (px x y).g ≤ 255 ∧ (px x y).b ≤ 255 ∧
        (px x y).a ≤ 255 := hv x y
    cases m <;>
      simp only [invert_image_keep_alpha, Img.convertRGB, rgb3, Prod.mk.injEq] <;>
      refine ⟨by omega, by omega, by omega⟩
  · intro hm
    have hmm : m = Mode.RGBA := hm
    subst hmm
    constructor
    · refine Img.ext rfl rfl rfl ?_
      funext x y
      have hvp : (px x y).r ≤ 255 ∧ (px x y).g ≤ 255 ∧ (px x y).b ≤ 255 ∧
          (px x y).a ≤ 255 := hv x y
      simp only [invert_image_keep_alpha]
      ext <;> simp <;> omega
    · intro x y
      rfl

/-- Witness for C4 at a concrete 1×1 RGBA image. -/
theorem invert_preserve_alpha_involution_witness :
    invert_image_keep_alpha (invert_image_keep_alpha
        ⟨1, 1, .RGBA, fun _ _ => ⟨5, 6, 7, 8⟩⟩)
      = ⟨1, 1, .RGBA, fun _ _ => ⟨5, 6, 7, 8⟩⟩
    ∧ (invert_image_keep_alpha ⟨1, 1, .RGBA, fun _ _ => ⟨5, 6, 7, 8⟩⟩).px 0 0
      = ⟨250, 249, 248, 8⟩ := by
  have hv : (⟨1, 1, .RGBA, fun _ _ => ⟨5, 6, 7, 8⟩⟩ : Img).Valid :=
    fun _ _ => ⟨by norm_num, by norm_num, by norm_num, by norm_num⟩
  have h := (invert_preserve_alpha_involution _ hv).2 rfl
  exact ⟨h.1, (h.2 0 0).trans rfl⟩

/-! ### The end-to-end flat-gray run -/

theorem grayBase_valid : grayBase.Valid :=
  fun _ _ => by norm_num [grayBase]

theorem stage12_flat_gray : stage12 paramsC1 grayBase = grayBase := by
  simp only [stage12, paramsC1, Bool.false_eq_true, if_false]
  exact enhanceBrightness_one grayBase grayBase_valid

set_option maxRecDepth 100000 in
/-- C1: on a flat 100×100 mid-gray RGB base with factor 1.0, no inversion,
white highlight and no gradient or texture, the pipeline's highlight mask is
0 at every pixel and the output is the base promoted to RGBA: same color
channels, alpha 255, mode RGBA, dimensions 100×100. -/
theorem pipeline_flat_gray_endtoend :
    apply_pipeline paramsC1 grayBase = grayBase.convertRGBA
    ∧ (∀ x y, ((pipelineMask (stage12 paramsC1 grayBase)).px x y).r = 0)
    ∧ (∀ x y, (grayBase.convertRGBA).px x y = ⟨128, 128, 128, 255⟩)
    ∧ (grayBase.convertRGBA).mode = Mode.RGBA
    ∧ (grayBase.convertRGBA).w = 100 ∧ (grayBase.convertRGBA).h = 100 := by
  have happ : apply_pipeline paramsC1 grayBase
      = highlightStage (255, 255, 255) (stage12 paramsC1 grayBase) := rfl
  refine ⟨?_, ?_, fun x y => rfl, rfl, rfl, rfl⟩
  · rw [happ, stage12_flat_gray]
    refine Img.ext rfl rfl rfl ?_
    funext x y
    norm_num [highlightStage, alpha_composite, compositePix, putalpha, newRGBA,
      pipelineMask, Img.convertL, Img.convertRGBA, standardLuma, maskVal, grayBase]
  · intro x y
    rw [stage12_flat_gray]
    norm_num [pipelineMask, Img.convertL, grayBase, standardLuma, maskVal]

/-! ### The mask formula -/

theorem grayOf_eq_luma (img : Img) (hm : img.mode ≠ Mode.L) (x y : Nat) :
    grayOf img x y = standardLuma (img.px x y) := by
  obtain ⟨w, h, m, px⟩ := img
  cases m <;> first | rfl | exact absurd rfl hm

/-- C2: the highlight mask the pipeline builds satisfies
`mask(x,y) = clamp(2 × max(0, gray(x,y) − 128), 0, 255)` where `gray` is the
standard luma of the pixel at that point of the current image, and the mask
is 0 wherever the luma is at most 128. -/
theorem pipeline_mask_formula (P : Params) (img : Img) (x y : Nat) :
    ((pipelineMask (stage12 P img)).px x y).r
        = luminance_mask_spec (grayOf (stage12 P img) x y)
    ∧ (grayOf (stage12 P img) x y ≤ 128 →
        ((pipelineMask (stage12 P img)).px x y).r = 0)
    ∧ ((stage12 P img).mode ≠ Mode.L →
        grayOf (stage12 P img) x y = standardLuma ((stage12 P img).px x y)) := by
  refine ⟨?_, ?_, fun hm => grayOf_eq_luma _ hm x y⟩
  · rw [pipelineMask_px]
    exact maskVal_spec _
  · intro hg
    rw [pipelineMask_px]
    show maskVal _ = 0
    unfold maskVal
    omega

/-- Witness for C2 at the flat gray base image and identity parameters. -/
theorem pipeline_mask_formula_witness :
    ((pipelineMask (stage12 paramsC1 grayBase)).px 2 3).r
      = luminance_mask_spec (grayOf (stage12 paramsC1 grayBase) 2 3) :=
  (pipeline_mask_formula paramsC1 grayBase 2 3).1

/-! ### The luminance scale multiplies and clamps -/

theorem enhanceBrightness_px_spec (f : ℚ) (hf : 0 ≤ f) (img : Img)
    (hv : img.Valid) (x y : Nat) :
    ((enhanceBrightness f img).px x y).r = scale_luminance_spec f ((img.px x y).r)
    ∧ ((enhanceBrightness f img).px x y).g = scale_luminance_spec f ((img.px x y).g)
    ∧ ((enhanceBrightness f img).px x y).b = scale_luminance_spec f ((img.px x y).b)
    ∧ ((enhanceBrightness f img).px x y).a = (img.px x y).a := by
  obtain ⟨w, h, m, px⟩ := img
  have hvp : (px x y).r ≤ 255 ∧ (px x y).g ≤ 255 ∧ (px x y).b ≤ 255 ∧
      (px x y).a ≤ 255 := hv x y
  cases m <;>
    exact ⟨blendChan_nonneg f hf _ hvp.1, blendChan_nonneg f hf _ hvp.2.1,
      blendChan_nonneg f hf _ hvp.2.2.1,
      by first | rfl | exact blendChan_self f _ hvp.2.2.2⟩

theorem scale_luminance_spec_zero (v : Nat) : scale_luminance_spec 0 v = 0 := by
  simp [scale_luminance_spec]

/-- C8: for a non-negative factor, the luminance-scaling stage multiplies
each color channel by the factor and clamps the (truncated) result to
[0,255], always leaving the alpha channel unchanged; with factor 0 every
color channel becomes 0 while alpha is preserved. -/
theorem scale_luminance_mul_clamp (f : ℚ) (img : Img) (hf : 0 ≤ f)
    (hv : img.Valid) :
    (∀ x y,
      ((enhanceBrightness f img).px x y).r = scale_luminance_spec f ((img.px x y).r)
      ∧ ((enhanceBrightness f img).px x y).g = scale_luminance_spec f ((img.px x y).g)
      ∧ ((enhanceBrightness f img).px x y).b = scale_luminance_spec f ((img.px x y).b)
      ∧ ((enhanceBrightness f img).px x y).a = (img.px x y).a)
    ∧ (∀ x y,
      ((enhanceBrightness 0 img).px x y).r = 0
      ∧ ((enhanceBrightness 0 img).px x y).g = 0
      ∧ ((enhanceBrightness 0 img).px x y).b = 0
      ∧ ((enhanceBrightness 0 img).px x y).a = (img.px x y).a) := by
  refine ⟨fun x y => enhanceBrightness_px_spec f hf img hv x y, fun x y => ?_⟩
  have h := enhanceBrightness_px_spec 0 le_rfl img hv x y
  simp only [scale_luminance_spec_zero] at h
  exact h

/-- Witness for C8: factor 2 on a 1×1 RGBA pixel (200,10,0,7). -/
theorem scale_luminance_mul_clamp_witness :
    ((enhanceBrightness 2 ⟨1, 1, .RGBA, fun _ _ => ⟨200, 10, 0, 7⟩⟩).px 0 0).r
      = scale_luminance_spec 2 200
    ∧ ((enhanceBrightness 2 ⟨1, 1, .RGBA, fun _ _ => ⟨200, 10, 0, 7⟩⟩).px 0 0).a
      = 7 := by
  have h := (scale_luminance_mul_clamp 2 ⟨1, 1, .RGBA, fun _ _ => ⟨200, 10, 0, 7⟩⟩
    (by norm_num) (fun _ _ => by norm_num)).1 0 0
  exact ⟨h.1, h.2.2.2⟩

/-! ### The mask never reaches 255 -/

/-- C9: every value of the pipeline's highlight mask is at most 254 (a luma
of 255 gives exactly 254), so the per-pixel alpha of the highlight overlay
never reaches 255. -/
theorem pipeline_mask_le_254 (P : Params) (img : Img) (hv : img.Valid) :
    (∀ x y, ((pipelineMask (stage12 P img)).px x y).r ≤ 254)
    ∧ (∀ x y, grayOf (stage12 P img) x y = 255 →
        ((pipelineMask (stage12 P img)).px x y).r = 254)
    ∧ (∀ hc x y,
        ((putalpha (newRGBA (stage12 P img).w (stage12 P img).h hc)
            (pipelineMask (stage12 P img))).px x y).a ≤ 254) := by
  have hvs := valid_stage12 P img hv
  have hle : ∀ x y : Nat, ((pipelineMask (stage12 P img)).px x y).r ≤ 254 := by
    intro x y
    rw [pipelineMask_px]
    exact maskVal_le _ (grayOf_le _ hvs x y)
  refine ⟨hle, ?_, fun hc x y => hle x y⟩
  intro x y hg
  rw [pipelineMask_px]
  show maskVal _ = 254
  rw [hg]
  decide

/-- Witness for C9 at the flat gray base and identity parameters. -/
theorem pipeline_mask_le_254_witness :
    ((pipelineMask (stage12 paramsC1 grayBase)).px 1 1).r ≤ 254 :=
  (pipeline_mask_le_254 paramsC1 grayBase grayBase_valid).1 1 1

/-! ### Blend dispatch and resize -/

theorem resize_self (img : Img) (tw th : Nat) (hw : img.w = tw)
    (hh : img.h = th) : img.resize tw th = img := by
  unfold Img.resize
  rw [if_pos ⟨hw, hh⟩]

theorem blend_images_normal_eq (a b : Img) :
    blend_images a b "normal"
      = imageBlend (1 / 2) (a.convertRGB)
          ((b.convertRGB).resize (a.convertRGB).w (a.convertRGB).h) := by
  simp [blend_images]

theorem blend_images_multiply_eq (a b : Img) :
    blend_images a b "multiply"
      = chopsMultiply (a.convertRGB)
          ((b.convertRGB).resize (a.convertRGB).w (a.convertRGB).h) := by
  simp [blend_images]

theorem blend_images_screen_eq (a b : Img) :
    blend_images a b "screen"
      = chopsScreen (a.convertRGB)
          ((b.convertRGB).resize (a.convertRGB).w (a.convertRGB).h) := by
  simp [blend_images]

theorem blend_images_overlay_eq (a b : Img) :
    blend_images a b "overlay"
      = overlayBlend (a.convertRGB)
          ((b.convertRGB).resize (a.convertRGB).w (a.convertRGB).h) := by
  simp [blend_images]

theorem resize_top_self (a b : Img) (hw : a.w = b.w) (hh : a.h = b.h) :
    (b.convertRGB).resize (a.convertRGB).w (a.convertRGB).h = b.convertRGB :=
  resize_self _ _ _ hw.symm hh.symm

/-! ### Commutativity of Multiply, Screen, Normal -/

theorem chopsMultiply_comm (A B : Img) (hw : A.w = B.w) (hh : A.h = B.h) :
    chopsMultiply A B = chopsMultiply B A := by
  refine Img.ext hw hh rfl ?_
  funext x y
  simp only [chopsMultiply]
  ext <;> simp [Nat.mul_comm]

theorem chopsScreen_comm (A B : Img) (hw : A.w = B.w) (hh : A.h = B.h) :
    chopsScreen A B = chopsScreen B A := by
  refine Img.ext hw hh rfl ?_
  funext x y
  simp only [chopsScreen]
  ext <;> simp [Nat.mul_comm]

theorem imageBlend_half_comm (A B : Img) (hw : A.w = B.w) (hh : A.h = B.h) :
    imageBlend (1 / 2) A B = imageBlend (1 / 2) B A := by
  refine Img.ext hw hh rfl ?_
  funext x y
  simp only [imageBlend]
  ext <;> first | rfl | exact blendChan_half_comm _ _

/-- C7: for same-size inputs, `blend_images` is commutative in the Multiply,
Screen and Normal (equal-weight average) modes, with per-sample equality of
the 8-bit results. -/
theorem blend_images_commutative (a b : Img) (hw : a.w = b.w) (hh : a.h = b.h) :
    blend_images a b "multiply" = blend_images b a "multiply"
    ∧ blend_images a b "screen" = blend_images b a "screen"
    ∧ blend_images a b "normal" = blend_images b a "normal" := by
  have hwc : (a.convertRGB).w = (b.convertRGB).w := hw
  have hhc : (a.convertRGB).h = (b.convertRGB).h := hh
  refine ⟨?_, ?_, ?_⟩
  · rw [blend_images_multiply_eq, blend_images_multiply_eq,
      resize_top_self a b hw hh, resize_top_self b a hw.symm hh.symm]
    exact chopsMultiply_comm _ _ hwc hhc
  · rw [blend_images_screen_eq, blend_images_screen_eq,
      resize_top_self a b hw hh, resize_top_self b a hw.symm hh.symm]
    exact chopsScreen_comm _ _ hwc hhc
  · rw [blend_images_normal_eq, blend_images_normal_eq,
      resize_top_self a b hw hh, resize_top_self b a hw.symm hh.symm]
    exact imageBlend_half_comm _ _ hwc hhc

/-- Witness for C7 at two concrete 1×1 images. -/
theorem blend_images_commutative_witness :
    blend_images ⟨1, 1, .RGB, fun _ _ => ⟨3, 250, 90, 255⟩⟩
        ⟨1, 1, .RGB, fun _ _ => ⟨200, 7, 45, 255⟩⟩ "multiply"
      = blend_images ⟨1, 1, .RGB, fun _ _ => ⟨200, 7, 45, 255⟩⟩
        ⟨1, 1, .RGB, fun _ _ => ⟨3, 250, 90, 255⟩⟩ "multiply" :=
  (blend_images_commutative ⟨1, 1, .RGB, fun _ _ => ⟨3, 250, 90, 255⟩⟩
    ⟨1, 1, .RGB, fun _ _ => ⟨200, 7, 45, 255⟩⟩ rfl rfl).1

/-! ### The Overlay formula and its denormalization -/

/-- C5 (amended): Overlay blending computes, per channel on samples
normalized to [0,1], `2·b·t` where the base channel is at most 0.5 and
`1 − 2(1−b)(1−t)` otherwise, denormalized by clamping to [0,255] and then
truncating toward zero (not rounding), with RGB output of the base's size. -/
theorem overlay_blend_formula (a b : Img) (hw : a.w = b.w) (hh : a.h = b.h)
    (x y : Nat) :
    (blend_images a b "overlay").px x y
      = ⟨overlay_floor_spec ((a.convertRGB.px x y).r) ((b.convertRGB.px x y).r),
         overlay_floor_spec ((a.convertRGB.px x y).g) ((b.convertRGB.px x y).g),
         overlay_floor_spec ((a.convertRGB.px x y).b) ((b.convertRGB.px x y).b),
         255⟩
    ∧ (blend_images a b "overlay").mode = Mode.RGB
    ∧ (blend_images a b "overlay").w = a.w
    ∧ (blend_images a b "overlay").h = a.h := by
  rw [blend_images_overlay_eq, resize_top_self a b hw hh]
  exact ⟨rfl, rfl, rfl, rfl⟩

/-- Witness for C5 at two concrete 1×1 images. -/
theorem overlay_blend_formula_witness :
    (blend_images ⟨1, 1, .RGB, fun _ _ => ⟨1, 1, 1, 255⟩⟩
        ⟨1, 1, .RGB, fun _ _ => ⟨64, 64, 64, 255⟩⟩ "overlay").px 0 0
      = ⟨overlay_floor_spec 1 64, overlay_floor_spec 1 64,
         overlay_floor_spec 1 64, 255⟩ :=
  (overlay_blend_formula ⟨1, 1, .RGB, fun _ _ => ⟨1, 1, 1, 255⟩⟩
    ⟨1, 1, .RGB, fun _ _ => ⟨64, 64, 64, 255⟩⟩ rfl rfl 0 0).1

/-- Counterexample to C5 as stated: at base channel 1 and top channel 64 the
normalized overlay value times 255 is 128/255 ≈ 0.502, which rounds to 1 but
the code's truncation produces 0. -/
theorem overlay_round_cex :
    ((blend_images ⟨1, 1, .RGB, fun _ _ => ⟨1, 1, 1, 255⟩⟩
        ⟨1, 1, .RGB, fun _ _ => ⟨64, 64, 64, 255⟩⟩ "overlay").px 0 0).r
      ≠ overlay_round_spec 1 64
    ∧ ((blend_images ⟨1, 1, .RGB, fun _ _ => ⟨1, 1, 1, 255⟩⟩
        ⟨1, 1, .RGB, fun _ _ => ⟨64, 64, 64, 255⟩⟩ "overlay").px 0 0).r = 0
    ∧ overlay_round_spec 1 64 = 1 := by
  have h0 : ((blend_images ⟨1, 1, .RGB, fun _ _ => ⟨1, 1, 1, 255⟩⟩
      ⟨1, 1, .RGB, fun _ _ => ⟨64, 64, 64, 255⟩⟩ "overlay").px 0 0).r = 0 := by
    rw [blend_images_overlay_eq]
    show overlayChan 1 64 = 0
    rw [show (overlayChan 1 64 : Nat)
        = Int.toNat ⌊max 0 (min 255 ((2 * ((1:ℚ) / 255) * ((64:ℚ) / 255)) * 255))⌋
      from by norm_num [overlayChan]]
    norm_num [min_def, max_def]
  have h1 : overlay_round_spec 1 64 = 1 := by
    rw [show overlay_round_spec 1 64
        = (min 255 (max 0 (round ((2 * ((1:ℚ) / 255) * ((64:ℚ) / 255)) * 255)))).toNat
      from by norm_num [overlay_round_spec, overlayFormula]]
    rw [round_eq]
    norm_num [min_def, max_def]
  exact ⟨by rw [h0, h1]; omega, h0, h1⟩

/-! ### Unknown blend mode and output dimensions -/

/-- C6 (amended): for any mode other than normal/multiply/screen/overlay,
`blend_images` totally (without failing) returns the base image converted to
RGB — same dimensions, and for non-L bases the very same color channels;
an RGBA base has its alpha channel dropped (replaced by full opacity). -/
theorem blend_images_unknown_mode (base top : Img) (mode : String)
    (h1 : mode ≠ "normal") (h2 : mode ≠ "multiply") (h3 : mode ≠ "screen")
    (h4 : mode ≠ "overlay") :
    blend_images base top mode = base.convertRGB
    ∧ (blend_images base top mode).w = base.w
    ∧ (blend_images base top mode).h = base.h
    ∧ (blend_images base top mode).mode = Mode.RGB
    ∧ (base.mode ≠ Mode.L →
        ∀ x y, rgb3 ((blend_images base top mode).px x y) = rgb3 (base.px x y)) := by
  have he : blend_images base top mode = base.convertRGB := by
    unfold blend_images
    rw [if_neg h1, if_neg h2, if_neg h3, if_neg h4]
  refine ⟨he, by rw [he]; rfl, by rw [he]; rfl, by rw [he]; rfl, ?_⟩
  intro hm x y
  rw [he]
  obtain ⟨w, h, m, px⟩ := base
  cases m <;> first | rfl | exact absurd rfl hm

/-- Witness for C6 with a concrete unknown mode string on a 1×1 RGB base. -/
theorem blend_images_unknown_mode_witness :
    blend_images ⟨1, 1, .RGB, fun _ _ => ⟨9, 8, 7, 255⟩⟩
        ⟨1, 1, .RGB, fun _ _ => ⟨0, 0, 0, 255⟩⟩ "luminosity"
      = (⟨1, 1, .RGB, fun _ _ => ⟨9, 8, 7, 255⟩⟩ : Img).convertRGB :=
  (blend_images_unknown_mode ⟨1, 1, .RGB, fun _ _ => ⟨9, 8, 7, 255⟩⟩
    ⟨1, 1, .RGB, fun _ _ => ⟨0, 0, 0, 255⟩⟩ "luminosity"
    (by decide) (by decide) (by decide) (by decide)).1

/-- Counterexample to C6 as stated: an RGBA base is not returned unchanged
by an unknown mode — the result is its RGB conversion, whose mode differs
and whose alpha samples are 255 rather than the base's 40. -/
theorem blend_images_unknown_mode_cex :
    blend_images ⟨1, 1, .RGBA, fun _ _ => ⟨10, 20, 30, 40⟩⟩
        ⟨1, 1, .RGB, fun _ _ => ⟨0, 0, 0, 255⟩⟩ "luminosity"
      ≠ ⟨1, 1, .RGBA, fun _ _ => ⟨10, 20, 30, 40⟩⟩
    ∧ ((blend_images ⟨1, 1, .RGBA, fun _ _ => ⟨10, 20, 30, 40⟩⟩
        ⟨1, 1, .RGB, fun _ _ => ⟨0, 0, 0, 255⟩⟩ "luminosity").px 0 0).a = 255
    ∧ ((⟨1, 1, .RGBA, fun _ _ => ⟨10, 20, 30, 40⟩⟩ : Img).px 0 0).a = 40 := by
  refine ⟨?_, rfl, rfl⟩
  intro hcontra
  have hmode := congrArg Img.mode hcontra
  simp [blend_images, Img.convertRGB] at hmode

/-- C10: for every pair of input images and every mode string, the output of
`blend_images` has exactly the base image's dimensions (the top image is
resized internally, so its dimensions are unconstrained). -/
theorem blend_images_output_dims (base top : Img) (mode : String) :
    (blend_images base top mode).w = base.w
    ∧ (blend_images base top mode).h = base.h := by
  unfold blend_images
  split_ifs <;> exact ⟨rfl, rfl⟩

/-- C3: For every input image, the luminance-scaling stage applied with
factor exactly 1.0 is the exact identity: every color channel of every pixel
is unchanged, and the alpha channel is unchanged (exact equality of samples). -/
theorem scale_luminance_factor_one_id (img : Img) (hv : img.Valid) :
    enhanceBrightness 1 img = img :=
  enhanceBrightness_one img hv

/-- Witness for C3 at a concrete 2×2 RGBA image. -/
theorem scale_luminance_factor_one_id_witness :
    enhanceBrightness 1 ⟨2, 2, .RGBA, fun _ _ => ⟨10, 200, 30, 40⟩⟩
      = ⟨2, 2, .RGBA, fun _ _ => ⟨10, 200, 30, 40⟩⟩ :=
  scale_luminance_factor_one_id ⟨2, 2, .RGBA, fun _ _ => ⟨10, 200, 30, 40⟩⟩
    (fun _ _ => by refine ⟨?_, ?_, ?_, ?_⟩ <;> norm_num)
